import Mathlib

/-!
Verification of the knowledge-hub data-access layer.

Text is modelled as `List Char`.  The SQLite-backed services of
`src/lib/db-service.ts` are embedded as pure functions over an explicit
database state (`DB`), with the impure inputs of the original code
(generated UUIDs, wall-clock timestamps) passed explicitly.  Fallible SQL
statements return `Except SqlErr`; since the original code runs each
statement separately with no surrounding transaction, the embedding
threads the state through each statement, so a failing statement leaves
the effects of the earlier ones in place.

The helpers `generateSlug` and `calculateReadingTime` live in
`src/lib/utils`, which is not part of the provided sources; they are
modelled from the spec, as marked on their doc comments.
-/

abbrev Str := List Char

/-- Lowercase ASCII letters and digits: the characters a slug may contain
besides the hyphen. -/
def isSlugAlnum (c : Char) : Bool :=
  (97 ≤ c.toNat && c.toNat ≤ 122) || (48 ≤ c.toNat && c.toNat ≤ 57)

/-- ASCII uppercase letters, the only characters `Char.toLower` maps. -/
def isAsciiUpper (c : Char) : Bool :=
  65 ≤ c.toNat && c.toNat ≤ 90

/-- Modelled from the spec: per-character step of the slug generator
(`generateSlug` of `src/lib/utils`, absent from the provided sources).
Lowercase alphanumerics are kept, uppercase ASCII letters are lowercased,
and every other character becomes a hyphen (non-alphanumeric runs are
collapsed by `squeezeHyphens` afterwards). -/
def slugMapChar (c : Char) : Char :=
  if isSlugAlnum c then c
  else if isAsciiUpper c then c.toLower
  else '-'

/-- Modelled from the spec: collapses every run of consecutive hyphens to a
single hyphen. -/
def squeezeHyphens : List Char → List Char
  | [] => []
  | [c] => [c]
  | a :: b :: rest =>
    if a = '-' ∧ b = '-' then squeezeHyphens (b :: rest)
    else a :: squeezeHyphens (b :: rest)

/-- Modelled from the spec: strips leading and trailing hyphens. -/
def trimHyphens (l : List Char) : List Char :=
  (l.dropWhile (fun c => c == '-')).rdropWhile (fun c => c == '-')

/-- Modelled from the spec: the slug generator of `src/lib/utils` (absent
from the provided sources) — lowercases the text, collapses runs of
non-alphanumeric characters to single hyphens, and trims leading and
trailing hyphens.  Pure function. -/
def generateSlug (s : Str) : Str :=
  trimHyphens (squeezeHyphens (s.map slugMapChar))

/-- A slug character is a lowercase alphanumeric or a hyphen. -/
def isSlugChar (c : Char) : Bool :=
  isSlugAlnum c || c == '-'

/-- Adjacent-pair constraint of a well-formed slug: no two consecutive
hyphens. -/
def SlugOk (a b : Char) : Prop := ¬(a = '-' ∧ b = '-')

/-- A well-formed slug: only lowercase alphanumerics and hyphens, no two
consecutive hyphens, and no leading or trailing hyphen. -/
def WellFormedSlug (l : Str) : Prop :=
  (∀ c ∈ l, isSlugChar c = true) ∧ List.Chain' SlugOk l ∧
    l.head? ≠ some '-' ∧ l.getLast? ≠ some '-'

/-- Whitespace characters separating words, as in a JavaScript split on
whitespace. -/
def isWsChar (c : Char) : Bool :=
  c == ' ' || c == '\n' || c == '\t' || c == '\r'

/-- Counts maximal runs of non-whitespace characters; the flag records
whether the scan is inside a word. -/
def countWordsAux : Bool → List Char → Nat
  | _, [] => 0
  | inWord, c :: rest =>
    if isWsChar c then countWordsAux false rest
    else (if inWord then 0 else 1) + countWordsAux true rest

/-- Number of whitespace-separated words in a text. -/
def countWords (s : Str) : Nat := countWordsAux false s

/-- Modelled from the spec: the reading-time estimator of `src/lib/utils`
(absent from the provided sources) — word count divided by an assumed
reading speed of 200 words per minute, rounded up, with a floor of one
minute.  Pure function. -/
def calculateReadingTime (content : Str) : Nat :=
  max 1 ((countWords content + 199) / 200)

/-- A row of the `posts` table.  `published` and `featured` are stored as
the integers 0/1 written by the service, modelled as `Bool`; timestamps
are abstract instants modelled as `Nat`. -/
structure PostRow where
  id : Str
  title : Str
  slug : Str
  content : Str
  excerpt : Option Str
  cover_image : Option Str
  published : Bool
  featured : Bool
  reading_time : Nat
  views : Nat
  created_at : Nat
  updated_at : Nat
  published_at : Option Nat
  author_id : Str
deriving DecidableEq, Repr

/-- A row of the `categories` table. -/
structure CategoryRow where
  id : Str
  name : Str
  slug : Str
  description : Option Str
  color : Option Str
deriving DecidableEq, Repr

/-- A row of the `tags` table. -/
structure TagRow where
  id : Str
  name : Str
  slug : Str
deriving DecidableEq, Repr

/-- A row of the `users` table. -/
structure UserRow where
  id : Str
  email : Str
  name : Str
  password : Str
deriving DecidableEq, Repr

/-- The database state: the five base tables and the two junction tables
of the schema in `src/lib/db.ts` (`initDatabase`). -/
structure DB where
  posts : List PostRow
  categories : List CategoryRow
  tags : List TagRow
  users : List UserRow
  post_categories : List (Str × Str)
  post_tags : List (Str × Str)
deriving DecidableEq, Repr

/-- Storage-layer failures: unique-constraint violations, foreign-key
violations (the connection runs with `foreign_keys = ON`), and SQL
syntax errors raised by `prepare`. -/
inductive SqlErr where
  | uniqueViolation
  | foreignKeyViolation
  | syntaxError
deriving DecidableEq, Repr

/-- The first `posts` row with the given id (`SELECT * FROM posts WHERE
id = ?` via `get`). -/
def rowOf (st : DB) (pid : Str) : Option PostRow :=
  st.posts.find? (fun p => p.id == pid)

/-- Whether some `posts` row has the given id. -/
def postExists (st : DB) (pid : Str) : Bool :=
  st.posts.any (fun p => p.id == pid)

/-- Whether some `categories` row has the given id. -/
def categoryExists (st : DB) (cid : Str) : Bool :=
  st.categories.any (fun c => c.id == cid)

/-- Whether some `tags` row has the given id. -/
def tagExists (st : DB) (tid : Str) : Bool :=
  st.tags.any (fun t => t.id == tid)

/-- The denormalized view returned by the post reads
(`PostWithRelations`): the row with its resolved categories, tags and
author. -/
structure PostWithRelations where
  post : PostRow
  categories : List CategoryRow
  tags : List TagRow
  author : Option UserRow
deriving DecidableEq, Repr

/-- `categoryService.findByPostId`: join of `post_categories` with
`categories` for one post, in junction-row order. -/
def categoriesByPostId (st : DB) (pid : Str) : List CategoryRow :=
  (st.post_categories.filter (fun pc => pc.1 == pid)).filterMap
    (fun pc => st.categories.find? (fun c => c.id == pc.2))

/-- `tagService.findByPostId`: join of `post_tags` with `tags` for one
post. -/
def tagsByPostId (st : DB) (pid : Str) : List TagRow :=
  (st.post_tags.filter (fun pt => pt.1 == pid)).filterMap
    (fun pt => st.tags.find? (fun t => t.id == pt.2))

/-- `userService.findById`. -/
def userById (st : DB) (uid : Str) : Option UserRow :=
  st.users.find? (fun u => u.id == uid)

/-- Attaches the resolved relations to a row, as the read operations
do. -/
def attachRelations (st : DB) (p : PostRow) : PostWithRelations :=
  ⟨p, categoriesByPostId st p.id, tagsByPostId st p.id, userById st p.author_id⟩

/-- `postService.findById` (src/lib/db-service.ts lines 152-164): resolves
the row and attaches its relations; an absent id gives `none`. -/
def postFindById (st : DB) (pid : Str) : Option PostWithRelations :=
  match rowOf st pid with
  | none => none
  | some p => some ⟨p, categoriesByPostId st pid, tagsByPostId st pid, userById st p.author_id⟩

/-- `postService.findBySlug` (src/lib/db-service.ts lines 166-178). -/
def postFindBySlug (st : DB) (slug : Str) : Option PostWithRelations :=
  match st.posts.find? (fun p => p.slug == slug) with
  | none => none
  | some p => some (attachRelations st p)

/-- `UpdatePostInput`: a partial update; `none` marks a field absent from
the input (`undefined` in the original). -/
structure UpdatePostInput where
  id : Str
  title : Option Str := none
  slug : Option Str := none
  content : Option Str := none
  excerpt : Option Str := none
  cover_image : Option Str := none
  published : Option Bool := none
  featured : Option Bool := none
  categories : Option (List Str) := none
  tags : Option (List Str) := none
deriving DecidableEq, Repr

/-- The row produced by the dynamic `UPDATE posts SET ...` statement of
`postService.update` (src/lib/db-service.ts lines 82-125) on a matching
row: each present field is assigned; a present content also reassigns
reading_time; a present published flag that is true also stamps
published_at; updated_at is always set to the current instant. -/
def applyUpdate (input : UpdatePostInput) (now : Nat) (p : PostRow) : PostRow :=
  let p := match input.title with | some t => { p with title := t } | none => p
  let p := match input.slug with | some s => { p with slug := s } | none => p
  let p := match input.content with
    | some c => { p with content := c, reading_time := calculateReadingTime c }
    | none => p
  let p := match input.excerpt with | some e => { p with excerpt := some e } | none => p
  let p := match input.cover_image with
    | some ci => { p with cover_image := some ci }
    | none => p
  let p := match input.published with
    | some b =>
      let q := { p with published := b }
      if b then { q with published_at := some now } else q
    | none => p
  let p := match input.featured with | some b => { p with featured := b } | none => p
  { p with updated_at := now }

/-- `INSERT INTO post_categories (post_id, category_id) VALUES (?, ?)`:
fails on the (post_id, category_id) primary key or on either foreign key
(the connection runs with `foreign_keys = ON`). -/
def insertPostCategory (st : DB) (pid cid : Str) : Except SqlErr DB :=
  if (pid, cid) ∈ st.post_categories then .error .uniqueViolation
  else if ¬ (postExists st pid && categoryExists st cid) = true then .error .foreignKeyViolation
  else .ok { st with post_categories := st.post_categories ++ [(pid, cid)] }

/-- `INSERT INTO post_tags (post_id, tag_id) VALUES (?, ?)`. -/
def insertPostTag (st : DB) (pid tid : Str) : Except SqlErr DB :=
  if (pid, tid) ∈ st.post_tags then .error .uniqueViolation
  else if ¬ (postExists st pid && tagExists st tid) = true then .error .foreignKeyViolation
  else .ok { st with post_tags := st.post_tags ++ [(pid, tid)] }

/-- The category-insert loop of `postService.update`/`create`; on a
failure the loop stops and the statements already executed keep their
effect (no transaction in the original code). -/
def insertPostCategories (st : DB) (pid : Str) : List Str → DB × Option SqlErr
  | [] => (st, none)
  | c :: rest =>
    match insertPostCategory st pid c with
    | .ok st2 => insertPostCategories st2 pid rest
    | .error e => (st, some e)

/-- The tag-insert loop of `postService.update`/`create`. -/
def insertPostTags (st : DB) (pid : Str) : List Str → DB × Option SqlErr
  | [] => (st, none)
  | t :: rest =>
    match insertPostTag st pid t with
    | .ok st2 => insertPostTags st2 pid rest
    | .error e => (st, some e)

/-- The association part of `postService.update` (src/lib/db-service.ts
lines 127-147): when the categories (resp. tags) field is present — even
as an empty array — all junction rows of the post are deleted and one row
per supplied id is inserted; an absent field leaves the associations
untouched. -/
def updateAssociations (st : DB) (input : UpdatePostInput) : DB × Option SqlErr :=
  let afterCats :=
    match input.categories with
    | none => (st, none)
    | some cats =>
      let st2 := { st with
        post_categories := st.post_categories.filter (fun pc => !(pc.1 == input.id)) }
      insertPostCategories st2 input.id cats
  match afterCats with
  | (st2, some e) => (st2, some e)
  | (st2, none) =>
    match input.tags with
    | none => (st2, none)
    | some tgs =>
      let st3 := { st2 with
        post_tags := st2.post_tags.filter (fun pt => !(pt.1 == input.id)) }
      insertPostTags st3 input.id tgs

/-- Whether the dynamic `UPDATE posts SET ...` statement of
`postService.update` violates the UNIQUE constraint on `posts.slug`: the
input sets a slug, some row matches the id, and another row already
carries that slug.  An UPDATE matching no row modifies nothing and can
violate no constraint, and a row keeping (or re-receiving) its own slug
conflicts with no other row. -/
def slugCollision (st : DB) (input : UpdatePostInput) : Bool :=
  match input.slug with
  | none => false
  | some s => postExists st input.id
      && st.posts.any (fun q => !(q.id == input.id) && q.slug == s)

/-- `postService.update` (src/lib/db-service.ts lines 78-150): runs the
dynamic UPDATE — which throws a unique violation and changes nothing
when the supplied slug collides with another row's (`posts.slug` is
UNIQUE), the whole statement being atomic — on every row matching the id
(at most one, the id being the primary key), then replaces the
associations for each present array field, then re-reads the post; an
absent id makes the final read return `none`.  The returned state keeps
the effect of every statement executed before a failure. -/
def postUpdate (st : DB) (input : UpdatePostInput) (now : Nat) :
    DB × Except SqlErr (Option PostWithRelations) :=
  if slugCollision st input then (st, .error .uniqueViolation)
  else
    let st1 := { st with
      posts := st.posts.map (fun p => if p.id == input.id then applyUpdate input now p else p) }
    match updateAssociations st1 input with
    | (st2, some e) => (st2, .error e)
    | (st2, none) => (st2, .ok (postFindById st2 input.id))

/-- Descending creation-time order (`ORDER BY created_at DESC`). -/
def createdDesc (a b : PostRow) : Prop := b.created_at ≤ a.created_at

instance : DecidableRel createdDesc :=
  fun a b => inferInstanceAs (Decidable (b.created_at ≤ a.created_at))

instance : IsTotal PostRow createdDesc :=
  ⟨fun a b => Nat.le_total b.created_at a.created_at⟩

instance : IsTrans PostRow createdDesc :=
  ⟨fun _ _ _ h1 h2 => Nat.le_trans h2 h1⟩

/-- The ordering step of `findAll` and `search`. -/
def sortByCreatedDesc (l : List PostRow) : List PostRow :=
  List.insertionSort createdDesc l

/-- The WHERE clause assembled by `postService.findAll`: the conjunction
of the present filters. -/
def findAllPred (pub feat : Option Bool) (p : PostRow) : Bool :=
  (match pub with | some b => p.published == b | none => true) &&
  (match feat with | some b => p.featured == b | none => true)

/-- `postService.findAll` (src/lib/db-service.ts lines 180-215).  The
LIMIT and OFFSET clauses are appended only for truthy values (JavaScript
`if (options?.limit)`), so 0 counts as absent; a query with an OFFSET
clause but no LIMIT clause is invalid SQLite syntax and `prepare` raises
an error. -/
def postFindAll (st : DB) (pub feat : Option Bool) (limit offset : Option Nat) :
    Except SqlErr (List PostWithRelations) :=
  let l := limit.getD 0
  let o := offset.getD 0
  if o ≠ 0 ∧ l = 0 then .error .syntaxError
  else
    let rows := sortByCreatedDesc (st.posts.filter (findAllPred pub feat))
    let rows := rows.drop o
    let rows := if l ≠ 0 then rows.take l else rows
    .ok (rows.map (attachRelations st))

/-- SQLite `LIKE` pattern matching: the percent sign matches any run of
characters (tried here against every suffix of the text), the underscore
matches exactly one character, and every other pattern character matches
case-insensitively on the ASCII letters. -/
def likeMatch : List Char → List Char → Bool
  | [], t => t.isEmpty
  | c :: ps, t =>
    if c = '%' then (List.tails t).any (fun s => likeMatch ps s)
    else
      match t with
      | [] => false
      | d :: ts => (if c = '_' then true else c.toLower == d.toLower) && likeMatch ps ts

/-- SQLite `LIKE` with the interpolated pattern `%q%` of
`postService.search`: the raw query is embedded in the pattern, so any
percent signs or underscores it contains keep their wildcard meaning. -/
def likeContains (hay q : Str) : Bool :=
  likeMatch ('%' :: (q ++ ['%'])) hay

/-- `postService.search` (src/lib/db-service.ts lines 217-232): published
rows whose title, content or excerpt matches `LIKE '%q%'`, in descending
creation-time order; a NULL excerpt never matches. -/
def postSearch (st : DB) (q : Str) : List PostWithRelations :=
  (sortByCreatedDesc (st.posts.filter (fun p =>
    p.published && (likeContains p.title q || likeContains p.content q ||
      (match p.excerpt with | some e => likeContains e q | none => false))))).map
    (attachRelations st)

/-- `CreatePostInput`: optional flags default to the falsy `undefined` of
the original. -/
structure CreatePostInput where
  title : Str
  slug : Str
  content : Str
  excerpt : Option Str := none
  cover_image : Option Str := none
  published : Bool := false
  featured : Bool := false
  reading_time : Option Nat := none
  author_id : Str
  categories : Option (List Str) := none
  tags : Option (List Str) := none
deriving DecidableEq, Repr

/-- The reading time stored by `postService.create`:
`input.reading_time || calculateReadingTime(input.content)` — a supplied
truthy value wins, an absent or zero value falls back to the computed
estimate. -/
def effectiveReadingTime (rt : Option Nat) (content : Str) : Nat :=
  match rt with
  | some r => if r ≠ 0 then r else calculateReadingTime content
  | none => calculateReadingTime content

/-- `INSERT INTO posts ...`: id primary key, unique slug, author foreign
key. -/
def insertPostRow (st : DB) (p : PostRow) : Except SqlErr DB :=
  if st.posts.any (fun q => q.id == p.id || q.slug == p.slug) then .error .uniqueViolation
  else if ¬ st.users.any (fun u => u.id == p.author_id) = true then .error .foreignKeyViolation
  else .ok { st with posts := st.posts ++ [p] }

/-- `postService.create` (src/lib/db-service.ts lines 31-76): inserts the
post row (reading time supplied-or-computed, publish timestamp stamped
exactly when created published), then one junction row per supplied
category and tag, then re-reads the post. -/
def postCreate (st : DB) (input : CreatePostInput) (newId : Str) (now : Nat) :
    DB × Except SqlErr (Option PostWithRelations) :=
  let row : PostRow :=
    { id := newId, title := input.title, slug := input.slug,
      content := input.content, excerpt := input.excerpt,
      cover_image := input.cover_image, published := input.published,
      featured := input.featured,
      reading_time := effectiveReadingTime input.reading_time input.content,
      views := 0, created_at := now, updated_at := now,
      published_at := if input.published then some now else none,
      author_id := input.author_id }
  match insertPostRow st row with
  | .error e => (st, .error e)
  | .ok st1 =>
    match insertPostCategories st1 newId (input.categories.getD []) with
    | (st2, some e) => (st2, .error e)
    | (st2, none) =>
      match insertPostTags st2 newId (input.tags.getD []) with
      | (st3, some e) => (st3, .error e)
      | (st3, none) => (st3, .ok (postFindById st3 newId))

/-- `categoryService.create` (src/lib/db-service.ts lines 247-256): the
slug is derived from the name; a unique-constraint violation on name or
slug surfaces as a thrown constraint error. -/
def categoryCreate (st : DB) (newId : Str) (name : Str)
    (description color : Option Str) : DB × Except SqlErr CategoryRow :=
  let row : CategoryRow :=
    { id := newId, name := name, slug := generateSlug name,
      description := description, color := color }
  if st.categories.any (fun c => c.id == newId || c.name == name || c.slug == row.slug) then
    (st, .error .uniqueViolation)
  else
    ({ st with categories := st.categories ++ [row] }, .ok row)

/-- Body of an HTTP response of the categories route. -/
inductive ApiBody where
  | categoryJson (c : CategoryRow)
  | errorJson (msg : Str)
deriving DecidableEq, Repr

/-- `POST /api/categories` (src/app/api/categories/route.ts lines 16-31):
a missing or empty name gives 400; success gives 201 with the category;
any thrown error — a unique-constraint conflict included — is caught by
the blanket handler and mapped to the same generic 500 response. -/
def categoriesPOST (st : DB) (name : Option Str) (description color : Option Str)
    (newId : Str) : DB × (Nat × ApiBody) :=
  match name with
  | none => (st, (400, .errorJson "Name is required".toList))
  | some n =>
    if n.isEmpty then (st, (400, .errorJson "Name is required".toList))
    else
      match categoryCreate st newId n description color with
      | (st2, .ok c) => (st2, (201, .categoryJson c))
      | (st2, .error _) => (st2, (500, .errorJson "Failed to create category".toList))

/-- A sample user for concrete evaluations. -/
def sampleUser : UserRow :=
  { id := ['u', '1'], email := ['u', '@', 'x'], name := ['U'], password := ['s'] }

/-- A sample category for concrete evaluations. -/
def sampleCategory : CategoryRow :=
  { id := ['c', '1'], name := ['t', 'e', 'c', 'h'], slug := ['t', 'e', 'c', 'h'],
    description := none, color := none }

/-- A sample tag for concrete evaluations. -/
def sampleTag : TagRow :=
  { id := ['t', '1'], name := ['t', 's'], slug := ['t', 's'] }

/-- A sample unpublished post for concrete evaluations. -/
def samplePost : PostRow :=
  { id := ['p', '1'], title := ['H', 'i'], slug := ['h', 'i'], content := ['h', 'i'],
    excerpt := none, cover_image := none, published := false, featured := false,
    reading_time := 1, views := 0, created_at := 0, updated_at := 0,
    published_at := none, author_id := ['u', '1'] }

/-- A sample already-published post with publish timestamp 5. -/
def samplePublishedPost : PostRow :=
  { samplePost with
      id := ['p', '2'],
      slug := ['h', 'i', '2'],
      published := true,
      published_at := some 5 }

/-- A sample database holding one unpublished post. -/
def sampleDB : DB :=
  { posts := [samplePost], categories := [sampleCategory], tags := [sampleTag],
    users := [sampleUser], post_categories := [], post_tags := [] }

/-- A sample database holding one already-published post. -/
def sampleDB2 : DB :=
  { sampleDB with posts := [samplePublishedPost] }

/-- A published post titled "abc", for exercising the search. -/
def wildcardPost : PostRow :=
  { samplePost with
      id := ['p', '4'],
      title := ['a', 'b', 'c'],
      slug := ['a', 'b', 'c'],
      content := ['x', 'y', 'z'],
      published := true,
      published_at := some 1 }

/-- A sample database holding the published post titled "abc". -/
def sampleDB3 : DB :=
  { sampleDB with posts := [wildcardPost] }

theorem char_toNat_ofNat {n : Nat} (h : n < 55296) : (Char.ofNat n).toNat = n := by
  have hv : n.isValidChar := Or.inl h
  simp only [Char.ofNat, hv, dite_true, reduceDIte]
  simp [Char.ofNatAux, Char.toNat, UInt32.toNat]

theorem toLower_toNat (c : Char) :
    (Char.toLower c).toNat =
      if 65 ≤ c.toNat ∧ c.toNat ≤ 90 then c.toNat + 32 else c.toNat := by
  unfold Char.toLower
  show (if c.toNat ≥ 65 ∧ c.toNat ≤ 90 then Char.ofNat (c.toNat + 32) else c).toNat = _
  by_cases h : 65 ≤ c.toNat ∧ c.toNat ≤ 90
  · rw [if_pos h, if_pos h]
    apply char_toNat_ofNat
    omega
  · rw [if_neg h, if_neg h]

theorem slugMapChar_isSlugChar (c : Char) : isSlugChar (slugMapChar c) = true := by
  unfold slugMapChar
  split
  · next h => simp [isSlugChar, h]
  · split
    · next h h2 =>
      simp only [isAsciiUpper, Bool.and_eq_true, decide_eq_true_eq] at h2
      have ht := toLower_toNat c
      rw [if_pos h2] at ht
      simp [isSlugChar, isSlugAlnum, ht]
      omega
    · simp [isSlugChar]

theorem slugMapChar_eq_self {c : Char} (h : isSlugChar c = true) :
    slugMapChar c = c := by
  unfold slugMapChar
  rcases Bool.or_eq_true _ _ |>.mp h with ha | hh
  · rw [if_pos ha]
  · have hc : c = '-' := eq_of_beq hh
    subst hc
    decide

theorem squeezeHyphens_head? :
    ∀ (x : Char) (xs : List Char), (squeezeHyphens (x :: xs)).head? = some x := by
  intro x xs
  induction xs generalizing x with
  | nil => simp [squeezeHyphens]
  | cons y ys ih =>
    rw [squeezeHyphens]
    split
    · next h =>
      rw [ih y]
      rw [h.1, h.2]
    · simp

theorem squeezeHyphens_subset : ∀ l : List Char, squeezeHyphens l ⊆ l
  | [] => by simp [squeezeHyphens]
  | [c] => by simp [squeezeHyphens]
  | a :: b :: rest => by
    rw [squeezeHyphens]
    split
    · exact (squeezeHyphens_subset (b :: rest)).trans (List.subset_cons_self a _)
    · exact List.cons_subset_cons a (squeezeHyphens_subset (b :: rest))

theorem squeezeHyphens_chain' : ∀ l : List Char, List.Chain' SlugOk (squeezeHyphens l)
  | [] => by simp [squeezeHyphens]
  | [c] => by simp [squeezeHyphens]
  | a :: b :: rest => by
    rw [squeezeHyphens]
    split
    · exact squeezeHyphens_chain' (b :: rest)
    · next h =>
      rw [List.chain'_cons']
      refine ⟨?_, squeezeHyphens_chain' (b :: rest)⟩
      intro y hy
      rw [squeezeHyphens_head? b rest] at hy
      simp only [Option.mem_def, Option.some.injEq] at hy
      subst hy
      exact h

theorem squeezeHyphens_eq_self : ∀ {l : List Char}, List.Chain' SlugOk l → squeezeHyphens l = l
  | [], _ => rfl
  | [_], _ => rfl
  | a :: b :: rest, h => by
    rw [squeezeHyphens]
    have hab : SlugOk a b := (List.chain'_cons.mp h).1
    rw [if_neg hab]
    rw [squeezeHyphens_eq_self (List.chain'_cons.mp h).2]

theorem isPrefix_head? {l₁ l₂ : List Char} (hp : l₁ <+: l₂) (hne : l₁ ≠ []) :
    l₁.head? = l₂.head? := by
  obtain ⟨t, rfl⟩ := hp
  cases l₁ with
  | nil => exact absurd rfl hne
  | cons a l => rfl

theorem trimHyphens_subset (l : List Char) : trimHyphens l ⊆ l :=
  List.Subset.trans (List.IsPrefix.subset ( List.rdropWhile_prefix _ _))
    (List.IsSuffix.subset (List.dropWhile_suffix _))

theorem trimHyphens_chain' {l : List Char} (h : List.Chain' SlugOk l) :
    List.Chain' SlugOk (trimHyphens l) :=
  List.Chain'.prefix (h.suffix (List.dropWhile_suffix _)) ( List.rdropWhile_prefix _ _)

theorem trimHyphens_head? (l : List Char) : (trimHyphens l).head? ≠ some '-' := by
  unfold trimHyphens
  set p : Char → Bool := fun c => c == '-' with hp
  set d := l.dropWhile p with hd
  by_cases hne : d.rdropWhile p = []
  · rw [hne]
    simp
  · rw [isPrefix_head? ( List.rdropWhile_prefix p d) hne]
    intro hcon
    have h2 := List.head?_dropWhile_not p l
    rw [← hd, hcon] at h2
    simp [hp] at h2

theorem trimHyphens_getLast? (l : List Char) : (trimHyphens l).getLast? ≠ some '-' := by
  unfold trimHyphens
  set p : Char → Bool := fun c => c == '-' with hp
  set d := l.dropWhile p with hd
  by_cases hne : d.rdropWhile p = []
  · rw [hne]
    simp
  · rw [List.getLast?_eq_getLast _ hne]
    intro hcon
    have hlast : (d.rdropWhile p).getLast hne = '-' := by
      simpa using hcon
    have := List.rdropWhile_last_not p d hne
    rw [hlast] at this
    simp [hp] at this

theorem trimHyphens_eq_self {l : List Char} (h1 : l.head? ≠ some '-')
    (h2 : l.getLast? ≠ some '-') : trimHyphens l = l := by
  unfold trimHyphens
  have hdrop : l.dropWhile (fun c => c == '-') = l := by
    rw [List.dropWhile_eq_self_iff]
    intro hl
    cases l with
    | nil => simp at hl
    | cons a t =>
      simp only [List.get]
      intro hcon
      exact h1 (by simp [eq_of_beq hcon])
  rw [hdrop]
  rw [List.rdropWhile_eq_self_iff]
  intro hl
  rw [List.getLast?_eq_getLast _ hl] at h2
  intro hcon
  exact h2 (by simp [eq_of_beq hcon])

theorem generateSlug_wellFormed (s : Str) : WellFormedSlug (generateSlug s) := by
  refine ⟨?_, ?_, ?_, ?_⟩
  · intro c hc
    have hc2 := trimHyphens_subset _ hc
    have hc3 := squeezeHyphens_subset _ hc2
    obtain ⟨c₀, _, rfl⟩ := List.mem_map.mp hc3
    exact slugMapChar_isSlugChar c₀
  · exact trimHyphens_chain' (squeezeHyphens_chain' _)
  · exact trimHyphens_head? _
  · exact trimHyphens_getLast? _

theorem generateSlug_idempotent (s : Str) :
    generateSlug (generateSlug s) = generateSlug s := by
  obtain ⟨hc, hch, hh, hl⟩ := generateSlug_wellFormed s
  show trimHyphens (squeezeHyphens ((generateSlug s).map slugMapChar)) = generateSlug s
  have hmap : (generateSlug s).map slugMapChar = generateSlug s := by
    have := List.map_congr_left (f := slugMapChar) (g := id)
      (fun c hmem => slugMapChar_eq_self (hc c hmem))
    rw [this, List.map_id]
  rw [hmap, squeezeHyphens_eq_self hch, trimHyphens_eq_self hh hl]

theorem calculateReadingTime_pos (content : Str) : 1 ≤ calculateReadingTime content :=
  le_max_left 1 _


theorem applyUpdate_eq (input : UpdatePostInput) (now : Nat) (p : PostRow) :
    applyUpdate input now p =
      { p with
          title := input.title.getD p.title,
          slug := input.slug.getD p.slug,
          content := input.content.getD p.content,
          reading_time :=
            match input.content with
            | some c => calculateReadingTime c
            | none => p.reading_time,
          excerpt :=
            match input.excerpt with
            | some e => some e
            | none => p.excerpt,
          cover_image :=
            match input.cover_image with
            | some ci => some ci
            | none => p.cover_image,
          published := input.published.getD p.published,
          featured := input.featured.getD p.featured,
          published_at :=
            match input.published with
            | some true => some now
            | some false => p.published_at
            | none => p.published_at,
          updated_at := now } := by
  rcases input with ⟨iid, ititle, islug, icontent, iexc, icov, ipub, ifeat, icats, itags⟩
  unfold applyUpdate
  rcases ititle with _ | t <;> rcases islug with _ | s <;> rcases icontent with _ | c <;>
    rcases iexc with _ | e <;> rcases icov with _ | ci <;>
    rcases ipub with _ | b <;> rcases ifeat with _ | f <;>
    first
      | rfl
      | (cases b <;> rfl)

theorem applyUpdate_id (input : UpdatePostInput) (now : Nat) (p : PostRow) :
    (applyUpdate input now p).id = p.id := by
  rw [applyUpdate_eq]

theorem insertPostCategory_fields {st st2 : DB} {pid cid : Str}
    (h : insertPostCategory st pid cid = .ok st2) :
    st2.posts = st.posts ∧ st2.post_tags = st.post_tags ∧
    st2.categories = st.categories ∧ st2.tags = st.tags ∧ st2.users = st.users ∧
    st2.post_categories = st.post_categories ++ [(pid, cid)] := by
  unfold insertPostCategory at h
  split at h
  · simp at h
  · split at h
    · simp at h
    · injection h with h2
      subst h2
      exact ⟨rfl, rfl, rfl, rfl, rfl, rfl⟩

theorem insertPostTag_fields {st st2 : DB} {pid tid : Str}
    (h : insertPostTag st pid tid = .ok st2) :
    st2.posts = st.posts ∧ st2.post_categories = st.post_categories ∧
    st2.categories = st.categories ∧ st2.tags = st.tags ∧ st2.users = st.users ∧
    st2.post_tags = st.post_tags ++ [(pid, tid)] := by
  unfold insertPostTag at h
  split at h
  · simp at h
  · split at h
    · simp at h
    · injection h with h2
      subst h2
      exact ⟨rfl, rfl, rfl, rfl, rfl, rfl⟩

theorem insertPostCategories_frame (pid : Str) :
    ∀ (cs : List Str) (st : DB),
      (insertPostCategories st pid cs).1.posts = st.posts ∧
      (insertPostCategories st pid cs).1.post_tags = st.post_tags ∧
      (insertPostCategories st pid cs).1.categories = st.categories ∧
      (insertPostCategories st pid cs).1.tags = st.tags ∧
      (insertPostCategories st pid cs).1.users = st.users
  | [], st => by simp [insertPostCategories]
  | c :: rest, st => by
    rw [insertPostCategories]
    cases h : insertPostCategory st pid c with
    | error e => exact ⟨rfl, rfl, rfl, rfl, rfl⟩
    | ok st2 =>
      obtain ⟨h1, h2, h3, h4, h5, _⟩ := insertPostCategory_fields h
      have ih := insertPostCategories_frame pid rest st2
      rw [h1, h2, h3, h4, h5] at ih
      exact ih

theorem insertPostTags_frame (pid : Str) :
    ∀ (ts : List Str) (st : DB),
      (insertPostTags st pid ts).1.posts = st.posts ∧
      (insertPostTags st pid ts).1.post_categories = st.post_categories ∧
      (insertPostTags st pid ts).1.categories = st.categories ∧
      (insertPostTags st pid ts).1.tags = st.tags ∧
      (insertPostTags st pid ts).1.users = st.users
  | [], st => by simp [insertPostTags]
  | t :: rest, st => by
    rw [insertPostTags]
    cases h : insertPostTag st pid t with
    | error e => exact ⟨rfl, rfl, rfl, rfl, rfl⟩
    | ok st2 =>
      obtain ⟨h1, h2, h3, h4, h5, _⟩ := insertPostTag_fields h
      have ih := insertPostTags_frame pid rest st2
      rw [h1, h2, h3, h4, h5] at ih
      exact ih

theorem rowOf_afterUpdate (st : DB) (input : UpdatePostInput) (now : Nat) :
    rowOf { st with
        posts := st.posts.map
          (fun p => if p.id == input.id then applyUpdate input now p else p) } input.id
      = (rowOf st input.id).map (applyUpdate input now) := by
  unfold rowOf
  show (st.posts.map
      (fun p => if p.id == input.id then applyUpdate input now p else p)).find?
        (fun p => p.id == input.id) = _
  rw [List.find?_map]
  have hpred : ((fun p : PostRow => p.id == input.id) ∘
      (fun p => if p.id == input.id then applyUpdate input now p else p))
      = fun p : PostRow => p.id == input.id := by
    funext p
    simp only [Function.comp]
    by_cases h : (p.id == input.id) = true
    · rw [if_pos h, applyUpdate_id]
    · rw [if_neg h]
  rw [hpred]
  cases hf : st.posts.find? (fun p => p.id == input.id) with
  | none => rfl
  | some r =>
    have hr := List.find?_some hf
    show some (if r.id == input.id then applyUpdate input now r else r) = _
    rw [if_pos hr]
    rfl

theorem updateAssociations_state (st : DB) (input : UpdatePostInput) :
    (updateAssociations st input).1.posts = st.posts ∧
    (updateAssociations st input).1.categories = st.categories ∧
    (updateAssociations st input).1.tags = st.tags ∧
    (updateAssociations st input).1.users = st.users ∧
    (input.categories = none →
      (updateAssociations st input).1.post_categories = st.post_categories) ∧
    (input.tags = none → (updateAssociations st input).1.post_tags = st.post_tags) := by
  unfold updateAssociations
  cases hc : input.categories with
  | none =>
    cases ht : input.tags with
    | none =>
      dsimp only
      exact ⟨rfl, rfl, rfl, rfl, fun _ => rfl, fun _ => rfl⟩
    | some tgs =>
      dsimp only
      have hf := insertPostTags_frame input.id tgs
        { st with post_tags := st.post_tags.filter (fun pt => !(pt.1 == input.id)) }
      dsimp only at hf
      exact ⟨hf.1, hf.2.2.1, hf.2.2.2.1, hf.2.2.2.2, fun _ => hf.2.1,
        fun habs => Option.noConfusion habs⟩
  | some cats =>
    dsimp only
    rcases hr : insertPostCategories
      { st with post_categories := st.post_categories.filter (fun pc => !(pc.1 == input.id)) }
      input.id cats with ⟨stA, oe⟩
    have hcf := insertPostCategories_frame input.id cats
      { st with post_categories := st.post_categories.filter (fun pc => !(pc.1 == input.id)) }
    rw [hr] at hcf
    dsimp only at hcf
    cases oe with
    | some e =>
      dsimp only
      exact ⟨hcf.1, hcf.2.2.1, hcf.2.2.2.1, hcf.2.2.2.2,
        fun habs => Option.noConfusion habs, fun _ => hcf.2.1⟩
    | none =>
      cases ht : input.tags with
      | none =>
        dsimp only
        exact ⟨hcf.1, hcf.2.2.1, hcf.2.2.2.1, hcf.2.2.2.2,
          fun habs => Option.noConfusion habs, fun _ => hcf.2.1⟩
      | some tgs =>
        dsimp only
        have htf := insertPostTags_frame input.id tgs
          { stA with post_tags := stA.post_tags.filter (fun pt => !(pt.1 == input.id)) }
        dsimp only at htf
        refine ⟨?_, ?_, ?_, ?_, fun habs => Option.noConfusion habs,
          fun habs => Option.noConfusion habs⟩
        · rw [htf.1]
          exact hcf.1
        · rw [htf.2.2.1]
          exact hcf.2.2.1
        · rw [htf.2.2.2.1]
          exact hcf.2.2.2.1
        · rw [htf.2.2.2.2]
          exact hcf.2.2.2.2

theorem postUpdate_state (st : DB) (input : UpdatePostInput) (now : Nat)
    (hcol : slugCollision st input = false) :
    (postUpdate st input now).1.posts
        = st.posts.map (fun p => if p.id == input.id then applyUpdate input now p else p) ∧
    (input.categories = none →
      (postUpdate st input now).1.post_categories = st.post_categories) ∧
    (input.tags = none → (postUpdate st input now).1.post_tags = st.post_tags) := by
  unfold postUpdate
  rw [if_neg (by simp [hcol])]
  dsimp only
  rcases hr : updateAssociations
    { st with
        posts := st.posts.map
          (fun p => if p.id == input.id then applyUpdate input now p else p) } input
    with ⟨st2, oe⟩
  have hu := updateAssociations_state
    { st with
        posts := st.posts.map
          (fun p => if p.id == input.id then applyUpdate input now p else p) } input
  rw [hr] at hu
  dsimp only at hu
  cases oe with
  | some e =>
    dsimp only
    exact ⟨hu.1, hu.2.2.2.2.1, hu.2.2.2.2.2⟩
  | none =>
    dsimp only
    exact ⟨hu.1, hu.2.2.2.2.1, hu.2.2.2.2.2⟩

theorem rowOf_postUpdate (st : DB) (input : UpdatePostInput) (now : Nat)
    (hcol : slugCollision st input = false) :
    rowOf (postUpdate st input now).1 input.id
      = (rowOf st input.id).map (applyUpdate input now) := by
  have h1 := (postUpdate_state st input now hcol).1
  have h2 := rowOf_afterUpdate st input now
  unfold rowOf at h2 ⊢
  rw [h1]
  exact h2

/-- C10: for an existing post id, `postService.update` sets the row's
updated_at timestamp to the current instant unconditionally — even when
the partial input supplies no fields at all — so an empty partial update
is not a no-op on the stored row. -/
theorem postUpdate_alwaysTouchesUpdatedAt (st : DB) (pid : Str) (now : Nat) (r : PostRow)
    (h : rowOf st pid = some r) :
    rowOf (postUpdate st { id := pid } now).1 pid = some { r with updated_at := now } := by
  have h2 := rowOf_postUpdate st { id := pid } now (by rfl)
  dsimp only at h2
  rw [h] at h2
  rw [h2]
  rfl

/-- C10 witness: the empty partial update at instant 3 on the sample
database stamps updated_at 3. -/
theorem postUpdate_alwaysTouchesUpdatedAt_witness :
    rowOf (postUpdate sampleDB { id := ['p', '1'] } 3).1 ['p', '1']
      = some { samplePost with updated_at := 3 } :=
  postUpdate_alwaysTouchesUpdatedAt sampleDB ['p', '1'] 3 samplePost (by rfl)

/-- C2 counterexample: re-publishing the already-published sample post
(stored publish timestamp 5) with published = true at instant 7 changes
the stored publish timestamp to 7, refuting the claim that re-supplying
published = true leaves the timestamp unchanged. -/
theorem postUpdate_republish_counterexample :
    (rowOf sampleDB2 ['p', '2']).map PostRow.published_at = some (some 5) ∧
    (rowOf (postUpdate sampleDB2 { id := ['p', '2'], published := some true } 7).1
        ['p', '2']).map PostRow.published_at = some (some 7) := by
  constructor
  · rfl
  · decide

/-- C2 (amended): whenever its UPDATE statement succeeds (any supplied
slug does not collide with another post's), `postService.update` stamps
the publish timestamp whenever the update supplies published = true —
also when the post is already published, so re-publishing refreshes the
stored timestamp — and an update that does not supply the published
field leaves both the flag and the timestamp unchanged. -/
theorem postUpdate_publishStamp (st : DB) (input : UpdatePostInput) (now : Nat) (r : PostRow)
    (h : rowOf st input.id = some r)
    (hcol : slugCollision st input = false) :
    (input.published = some true →
      (rowOf (postUpdate st input now).1 input.id).map PostRow.published_at
        = some (some now)) ∧
    (input.published = none →
      (rowOf (postUpdate st input now).1 input.id).map PostRow.published_at
          = some r.published_at ∧
      (rowOf (postUpdate st input now).1 input.id).map PostRow.published
          = some r.published) := by
  have h2 := rowOf_postUpdate st input now hcol
  rw [h] at h2
  refine ⟨fun hp => ?_, fun hp => ⟨?_, ?_⟩⟩
  · rw [h2]
    simp [applyUpdate_eq, hp]
  · rw [h2]
    simp [applyUpdate_eq, hp]
  · rw [h2]
    simp [applyUpdate_eq, hp]

/-- C2 witness: stamping at instant 7 on the already-published sample
post yields stored publish timestamp 7. -/
theorem postUpdate_publishStamp_witness :
    (rowOf (postUpdate sampleDB2 { id := ['p', '2'], published := some true } 7).1
        ['p', '2']).map PostRow.published_at = some (some 7) :=
  (postUpdate_publishStamp sampleDB2 { id := ['p', '2'], published := some true } 7
    samplePublishedPost (by rfl) (by rfl)).1 (by rfl)

/-- C3 counterexample: the empty partial update at instant 3 changes the
stored updated_at column — a column whose field is absent from the
partial input — from 0 to 3, refuting the claim that every stored column
whose field is absent keeps its prior value. -/
theorem postUpdate_frame_counterexample :
    (rowOf sampleDB ['p', '1']).map PostRow.updated_at = some 0 ∧
    (rowOf (postUpdate sampleDB { id := ['p', '1'] } 3).1 ['p', '1']).map
        PostRow.updated_at = some 3 := by
  constructor
  · rfl
  · decide

/-- C3 (amended): for an existing post and an update whose UPDATE
statement succeeds (any supplied slug does not collide with another
post's), `postService.update` changes only the fields present in the
partial input — plus reading-time when content is supplied, the publish
timestamp per the publish rule, and the updated_at column, which is
refreshed on every update; the id, author, views, creation time and
every absent field keep their prior values, and the associations of a
post whose categories (resp. tags) field is absent are unchanged. -/
theorem postUpdate_frame (st : DB) (input : UpdatePostInput) (now : Nat) (r : PostRow)
    (h : rowOf st input.id = some r)
    (hcol : slugCollision st input = false) :
    rowOf (postUpdate st input now).1 input.id = some
      { r with
          title := input.title.getD r.title,
          slug := input.slug.getD r.slug,
          content := input.content.getD r.content,
          reading_time :=
            match input.content with
            | some c => calculateReadingTime c
            | none => r.reading_time,
          excerpt :=
            match input.excerpt with
            | some e => some e
            | none => r.excerpt,
          cover_image :=
            match input.cover_image with
            | some ci => some ci
            | none => r.cover_image,
          published := input.published.getD r.published,
          featured := input.featured.getD r.featured,
          published_at :=
            match input.published with
            | some true => some now
            | some false => r.published_at
            | none => r.published_at,
          updated_at := now } ∧
    (input.categories = none →
      (postUpdate st input now).1.post_categories = st.post_categories) ∧
    (input.tags = none → (postUpdate st input now).1.post_tags = st.post_tags) := by
  refine ⟨?_, (postUpdate_state st input now hcol).2.1,
    (postUpdate_state st input now hcol).2.2⟩
  have h2 := rowOf_postUpdate st input now hcol
  rw [h] at h2
  rw [h2]
  show some (applyUpdate input now r) = _
  rw [applyUpdate_eq]

/-- C3 witness: updating only the title of the sample post at instant 4
changes the title and updated_at and nothing else; the associations are
untouched. -/
theorem postUpdate_frame_witness :
    rowOf (postUpdate sampleDB { id := ['p', '1'], title := some ['T'] } 4).1 ['p', '1']
        = some { samplePost with title := ['T'], updated_at := 4 } ∧
    (postUpdate sampleDB { id := ['p', '1'], title := some ['T'] } 4).1.post_categories
        = sampleDB.post_categories ∧
    (postUpdate sampleDB { id := ['p', '1'], title := some ['T'] } 4).1.post_tags
        = sampleDB.post_tags := by
  have h := postUpdate_frame sampleDB { id := ['p', '1'], title := some ['T'] } 4
    samplePost (by rfl) (by rfl)
  exact ⟨h.1, h.2.1 (by rfl), h.2.2 (by rfl)⟩

theorem not_mem_filterOwn (pid x : Str) (l : List (Str × Str)) :
    (pid, x) ∉ l.filter (fun pc => !(pc.1 == pid)) := by
  intro hmem
  have h := List.mem_filter.mp hmem
  simp at h

theorem insertPostCategories_ok (pid : Str) :
    ∀ (cs : List Str) (st : DB), cs.Nodup →
      postExists st pid = true →
      (∀ c ∈ cs, categoryExists st c = true) →
      (∀ c ∈ cs, (pid, c) ∉ st.post_categories) →
      insertPostCategories st pid cs
        = ({ st with
              post_categories := st.post_categories ++ cs.map (fun c => (pid, c)) }, none)
  | [], st => by
    intro _ _ _ _
    simp [insertPostCategories]
  | c :: rest, st => by
    intro hnd hpe hce hnm
    have hand : (postExists st pid && categoryExists st c) = true := by
      rw [hpe, hce c (by simp)]
      rfl
    have hins : insertPostCategory st pid c
        = .ok { st with post_categories := st.post_categories ++ [(pid, c)] } := by
      unfold insertPostCategory
      rw [if_neg (hnm c (by simp))]
      rw [if_neg (fun hn => hn hand)]
    rw [insertPostCategories, hins]
    dsimp only
    have hnd2 := List.nodup_cons.mp hnd
    have ih := insertPostCategories_ok pid rest
      { st with post_categories := st.post_categories ++ [(pid, c)] }
      hnd2.2 hpe (fun c2 h2 => hce c2 (by simp [h2]))
      (by
        intro c2 h2 hmem
        rcases List.mem_append.mp hmem with hl | hr
        · exact hnm c2 (by simp [h2]) hl
        · have : c2 = c := by
            simpa using hr
          exact hnd2.1 (this ▸ h2))
    rw [ih]
    rw [List.append_assoc]
    rfl

theorem insertPostTags_ok (pid : Str) :
    ∀ (ts : List Str) (st : DB), ts.Nodup →
      postExists st pid = true →
      (∀ t ∈ ts, tagExists st t = true) →
      (∀ t ∈ ts, (pid, t) ∉ st.post_tags) →
      insertPostTags st pid ts
        = ({ st with post_tags := st.post_tags ++ ts.map (fun t => (pid, t)) }, none)
  | [], st => by
    intro _ _ _ _
    simp [insertPostTags]
  | t :: rest, st => by
    intro hnd hpe hte hnm
    have hand : (postExists st pid && tagExists st t) = true := by
      rw [hpe, hte t (by simp)]
      rfl
    have hins : insertPostTag st pid t
        = .ok { st with post_tags := st.post_tags ++ [(pid, t)] } := by
      unfold insertPostTag
      rw [if_neg (hnm t (by simp))]
      rw [if_neg (fun hn => hn hand)]
    rw [insertPostTags, hins]
    dsimp only
    have hnd2 := List.nodup_cons.mp hnd
    have ih := insertPostTags_ok pid rest
      { st with post_tags := st.post_tags ++ [(pid, t)] }
      hnd2.2 hpe (fun t2 h2 => hte t2 (by simp [h2]))
      (by
        intro t2 h2 hmem
        rcases List.mem_append.mp hmem with hl | hr
        · exact hnm t2 (by simp [h2]) hl
        · have : t2 = t := by
            simpa using hr
          exact hnd2.1 (this ▸ h2))
    rw [ih]
    rw [List.append_assoc]
    rfl

theorem postUpdate_fst (st : DB) (input : UpdatePostInput) (now : Nat)
    (hcol : slugCollision st input = false) :
    (postUpdate st input now).1
      = (updateAssociations
          { st with
              posts := st.posts.map
                (fun p => if p.id == input.id then applyUpdate input now p else p) }
          input).1 := by
  unfold postUpdate
  rw [if_neg (by simp [hcol])]
  dsimp only
  rcases hr : updateAssociations
    { st with
        posts := st.posts.map
          (fun p => if p.id == input.id then applyUpdate input now p else p) } input
    with ⟨st2, oe⟩
  cases oe with
  | some e => rfl
  | none => rfl

theorem postExists_afterUpdate (st : DB) (input : UpdatePostInput) (now : Nat) (pid : Str) :
    postExists
      { st with
          posts := st.posts.map
            (fun p => if p.id == input.id then applyUpdate input now p else p) } pid
      = postExists st pid := by
  unfold postExists
  show (st.posts.map _).any _ = _
  rw [List.any_map]
  congr 1
  funext p
  simp only [Function.comp]
  by_cases h : (p.id == input.id) = true
  · rw [if_pos h, applyUpdate_id]
  · rw [if_neg h]

theorem updateAssociations_replace (st : DB) (input : UpdatePostInput)
    (hpost : postExists st input.id = true)
    (hcats : ∀ cs, input.categories = some cs →
      cs.Nodup ∧ ∀ c ∈ cs, categoryExists st c = true)
    (htags : ∀ ts, input.tags = some ts →
      ts.Nodup ∧ ∀ t ∈ ts, tagExists st t = true) :
    (∀ cs, input.categories = some cs →
      (updateAssociations st input).1.post_categories
        = st.post_categories.filter (fun pc => !(pc.1 == input.id))
            ++ cs.map (fun c => (input.id, c))) ∧
    (∀ ts, input.tags = some ts →
      (updateAssociations st input).1.post_tags
        = st.post_tags.filter (fun pt => !(pt.1 == input.id))
            ++ ts.map (fun t => (input.id, t))) := by
  unfold updateAssociations
  cases hc : input.categories with
  | none =>
    cases ht : input.tags with
    | none =>
      dsimp only
      exact ⟨fun cs habs => Option.noConfusion habs, fun ts habs => Option.noConfusion habs⟩
    | some ts =>
      dsimp only
      obtain ⟨hndt, htex⟩ := htags ts ht
      have hok := insertPostTags_ok input.id ts
        { st with post_tags := st.post_tags.filter (fun pt => !(pt.1 == input.id)) }
        hndt hpost htex (fun t _ => not_mem_filterOwn input.id t st.post_tags)
      rw [hok]
      exact ⟨fun cs habs => Option.noConfusion habs, fun ts2 hts2 => by
        injection hts2 with hts3
        subst hts3
        rfl⟩
  | some cs =>
    dsimp only
    obtain ⟨hndc, hcex⟩ := hcats cs hc
    have hok := insertPostCategories_ok input.id cs
      { st with post_categories := st.post_categories.filter (fun pc => !(pc.1 == input.id)) }
      hndc hpost hcex (fun c _ => not_mem_filterOwn input.id c st.post_categories)
    rw [hok]
    dsimp only
    cases ht : input.tags with
    | none =>
      dsimp only
      exact ⟨fun cs2 hcs2 => by
        injection hcs2 with hcs3
        subst hcs3
        rfl, fun ts habs => Option.noConfusion habs⟩
    | some ts =>
      dsimp only
      obtain ⟨hndt, htex⟩ := htags ts ht
      have hok2 := insertPostTags_ok input.id ts
        { st with
            post_categories := st.post_categories.filter (fun pc => !(pc.1 == input.id))
              ++ cs.map (fun c => (input.id, c)),
            post_tags := st.post_tags.filter (fun pt => !(pt.1 == input.id)) }
        hndt hpost htex (fun t _ => not_mem_filterOwn input.id t st.post_tags)
      rw [hok2]
      constructor
      · intro cs2 hcs2
        injection hcs2 with hcs3
        subst hcs3
        rfl
      · intro ts2 hts2
        injection hts2 with hts3
        subst hts3
        rfl

/-- C1: for an existing post and an update whose categories (resp. tags)
array is present — the empty array included — listing distinct ids of
existing categories (resp. tags), and whose UPDATE statement itself
succeeds (any supplied slug does not collide with another post's),
`postService.update` replaces the post's full association set
(delete-then-insert, not a merge): after the update a junction row
(post, c) is stored exactly for the supplied ids c, and in particular
supplying the empty array removes every prior association of the
post. -/
theorem postUpdate_replaceAssociations (st : DB) (input : UpdatePostInput) (now : Nat)
    (hpost : postExists st input.id = true)
    (hcats : ∀ cs, input.categories = some cs →
      cs.Nodup ∧ ∀ c ∈ cs, categoryExists st c = true)
    (htags : ∀ ts, input.tags = some ts →
      ts.Nodup ∧ ∀ t ∈ ts, tagExists st t = true)
    (hcol : slugCollision st input = false) :
    (∀ cs, input.categories = some cs →
      ∀ c, ((input.id, c) ∈ (postUpdate st input now).1.post_categories ↔ c ∈ cs)) ∧
    (∀ ts, input.tags = some ts →
      ∀ t, ((input.id, t) ∈ (postUpdate st input now).1.post_tags ↔ t ∈ ts)) := by
  have hpost1 : postExists
      { st with
          posts := st.posts.map
            (fun p => if p.id == input.id then applyUpdate input now p else p) }
      input.id = true := by
    rw [postExists_afterUpdate]
    exact hpost
  have hrepl := updateAssociations_replace
    { st with
        posts := st.posts.map
          (fun p => if p.id == input.id then applyUpdate input now p else p) }
    input hpost1 hcats htags
  rw [postUpdate_fst st input now hcol]
  constructor
  · intro cs hcs c
    rw [hrepl.1 cs hcs]
    constructor
    · intro hmem
      rcases List.mem_append.mp hmem with hl | hmr
      · exact absurd hl (not_mem_filterOwn input.id c _)
      · obtain ⟨c2, hc2, heq⟩ := List.mem_map.mp hmr
        have hcc : c2 = c := by
          simpa using heq
        exact hcc ▸ hc2
    · intro hcmem
      exact List.mem_append.mpr (Or.inr (List.mem_map.mpr ⟨c, hcmem, rfl⟩))
  · intro ts hts t
    rw [hrepl.2 ts hts]
    constructor
    · intro hmem
      rcases List.mem_append.mp hmem with hl | hmr
      · exact absurd hl (not_mem_filterOwn input.id t _)
      · obtain ⟨t2, ht2, heq⟩ := List.mem_map.mp hmr
        have htt : t2 = t := by
          simpa using heq
        exact htt ▸ ht2
    · intro htmem
      exact List.mem_append.mpr (Or.inr (List.mem_map.mpr ⟨t, htmem, rfl⟩))

/-- C1 witness: replacing the sample post's associations with category
list [c1] and tag list [] leaves exactly the (p1, c1) category row and no
tag row. -/
theorem postUpdate_replaceAssociations_witness :
    ((['p', '1'], ['c', '1']) ∈ (postUpdate sampleDB
        { id := ['p', '1'], categories := some [['c', '1']], tags := some [] } 2).1.post_categories
      ↔ ['c', '1'] ∈ [['c', '1']]) ∧
    ((['p', '1'], ['t', '1']) ∈ (postUpdate sampleDB
        { id := ['p', '1'], categories := some [['c', '1']], tags := some [] } 2).1.post_tags
      ↔ ['t', '1'] ∈ ([] : List Str)) := by
  have h := postUpdate_replaceAssociations sampleDB
    { id := ['p', '1'], categories := some [['c', '1']], tags := some [] } 2
    (by decide)
    (by
      intro cs hcs
      injection hcs with h2
      subst h2
      exact ⟨by decide, by decide⟩)
    (by
      intro ts hts
      injection hts with h2
      subst h2
      exact ⟨by decide, by decide⟩)
    (by rfl)
  exact ⟨h.1 [['c', '1']] rfl ['c', '1'], h.2 [] rfl ['t', '1']⟩

/-- C6 counterexample: calling update with the absent post id px and the
non-empty category list [c1] does not return a not-found signal — the
junction insert violates the post foreign key and the operation fails
with a constraint error. -/
theorem notFound_counterexample :
    rowOf sampleDB ['p', 'x'] = none ∧
    (postUpdate sampleDB { id := ['p', 'x'], categories := some [['c', '1']] } 0).2
      = Except.error SqlErr.foreignKeyViolation := by
  constructor
  · rfl
  · rfl

/-- C6 (amended): "not found" is a normal optional result: findById and
findBySlug return none for an absent id or slug, and update with an
absent id returns a not-found signal with the stored state unchanged
provided every supplied categories/tags array is empty or absent; a
non-empty array supplied with an absent id instead raises a foreign-key
constraint failure. -/
theorem notFound_behaviour (st : DB) (input : UpdatePostInput) (now : Nat) (sl : Str)
    (hid : rowOf st input.id = none)
    (hcats : input.categories = none ∨ input.categories = some [])
    (htags : input.tags = none ∨ input.tags = some [])
    (hpc : ∀ c, (input.id, c) ∉ st.post_categories)
    (hpt : ∀ t, (input.id, t) ∉ st.post_tags)
    (hsl : ∀ p ∈ st.posts, ¬ p.slug = sl) :
    postUpdate st input now = (st, Except.ok none) ∧
    postFindById st input.id = none ∧
    postFindBySlug st sl = none := by
  have h0 : ∀ p ∈ st.posts, ¬ (p.id == input.id) = true := by
    intro p hp
    exact List.find?_eq_none.mp hid p hp
  have hpm : st.posts.map
      (fun p => if p.id == input.id then applyUpdate input now p else p) = st.posts := by
    have h1 : st.posts.map
        (fun p => if p.id == input.id then applyUpdate input now p else p)
          = st.posts.map id :=
      List.map_congr_left (fun p hp => by rw [if_neg (h0 p hp)]; rfl)
    rw [h1, List.map_id]
  have hfc : st.post_categories.filter (fun pc => !(pc.1 == input.id))
      = st.post_categories := by
    rw [List.filter_eq_self]
    intro pc hpcm
    by_cases hq : (pc.1 == input.id) = true
    · have : pc = (input.id, pc.2) := by
        have := eq_of_beq hq
        exact Prod.ext this rfl
      exact absurd (this ▸ hpcm) (hpc pc.2)
    · simp [hq]
  have hft : st.post_tags.filter (fun pt => !(pt.1 == input.id)) = st.post_tags := by
    rw [List.filter_eq_self]
    intro pt hptm
    by_cases hq : (pt.1 == input.id) = true
    · have : pt = (input.id, pt.2) := by
        have := eq_of_beq hq
        exact Prod.ext this rfl
      exact absurd (this ▸ hptm) (hpt pt.2)
    · simp [hq]
  have hfid : postFindById st input.id = none := by
    unfold postFindById
    rw [hid]
  have hua : updateAssociations st input = (st, none) := by
    rcases hcats with hc | hc <;> rcases htags with ht | ht
    · unfold updateAssociations
      rw [hc, ht]
    · unfold updateAssociations
      rw [hc, ht]
      show (({ st with
          post_tags := st.post_tags.filter (fun pt => !(pt.1 == input.id)) } : DB),
        (none : Option SqlErr)) = (st, none)
      rw [hft]
    · unfold updateAssociations
      rw [hc, ht]
      show (({ st with
          post_categories := st.post_categories.filter (fun pc => !(pc.1 == input.id)) } : DB),
        (none : Option SqlErr)) = (st, none)
      rw [hfc]
    · unfold updateAssociations
      rw [hc, ht]
      show (({ st with
          post_categories := st.post_categories.filter (fun pc => !(pc.1 == input.id)),
          post_tags := st.post_tags.filter (fun pt => !(pt.1 == input.id)) } : DB),
        (none : Option SqlErr)) = (st, none)
      rw [hfc, hft]
  have hpe : postExists st input.id = false :=
    List.any_eq_false.mpr (fun q hq => h0 q hq)
  have hcol : slugCollision st input = false := by
    unfold slugCollision
    cases input.slug with
    | none => rfl
    | some s =>
      rw [hpe]
      rfl
  have hup : postUpdate st input now = (st, Except.ok none) := by
    unfold postUpdate
    rw [if_neg (by simp [hcol])]
    dsimp only
    rw [hpm]
    rw [show ({ st with posts := st.posts } : DB) = st from rfl]
    rw [hua]
    dsimp only
    rw [hfid]
  refine ⟨hup, hfid, ?_⟩
  unfold postFindBySlug
  have : st.posts.find? (fun p => p.slug == sl) = none := by
    rw [List.find?_eq_none]
    intro p hp hbeq
    exact hsl p hp (eq_of_beq hbeq)
  rw [this]

/-- C6 witness: on the sample database, update with absent id px and
empty category list returns a not-found signal with the state unchanged,
and the reads return none for an absent id and slug. -/
theorem notFound_behaviour_witness :
    postUpdate sampleDB { id := ['p', 'x'], categories := some [] } 9
        = (sampleDB, Except.ok none) ∧
    postFindById sampleDB ['p', 'x'] = none ∧
    postFindBySlug sampleDB ['n', 'o'] = none :=
  notFound_behaviour sampleDB { id := ['p', 'x'], categories := some [] } 9 ['n', 'o']
    (by rfl) (Or.inr rfl) (Or.inl rfl)
    (by
      intro c h
      simp [sampleDB] at h)
    (by
      intro t h
      simp [sampleDB] at h)
    (by decide)

/-- C9: the slug generator (spec-modelled, its implementation being
absent from the provided sources) is a pure deterministic function whose
output is always a well-formed slug — only lowercase alphanumerics and
hyphens, no two consecutive hyphens, no leading or trailing hyphen — and
it is idempotent, hence in particular the identity on already-slugified
input. -/
theorem generateSlug_spec :
    (∀ s : Str, WellFormedSlug (generateSlug s)) ∧
    (∀ s : Str, generateSlug (generateSlug s) = generateSlug s) :=
  ⟨generateSlug_wellFormed, generateSlug_idempotent⟩

theorem likeMatch_percent (ps : List Char) (t : List Char) :
    likeMatch ('%' :: ps) t = true ↔ ∃ s, s <:+ t ∧ likeMatch ps s = true := by
  rw [likeMatch.eq_def]
  dsimp only
  rw [if_pos rfl]
  rw [List.any_eq_true]
  constructor
  · rintro ⟨s, hs, hm⟩
    exact ⟨s, (List.mem_tails s t).mp hs, hm⟩
  · rintro ⟨s, hs, hm⟩
    exact ⟨s, (List.mem_tails s t).mpr hs, hm⟩

theorem likeMatch_plain :
    ∀ (q : Str), (∀ c ∈ q, ¬(c = '%' ∨ c = '_')) →
      ∀ t : List Char, likeMatch (q ++ ['%']) t = true
        ↔ (q.map Char.toLower) <+: (t.map Char.toLower)
  | [], _, t => by
    constructor
    · intro _
      exact List.nil_prefix
    · intro _
      rw [show (([] : Str) ++ ['%']) = ['%'] from rfl]
      rw [likeMatch_percent]
      exact ⟨[], List.nil_suffix, rfl⟩
  | c :: q', hq, t => by
    have hc := hq c (by simp)
    have hcp : c ≠ '%' := fun h2 => hc (Or.inl h2)
    have hcu : c ≠ '_' := fun h2 => hc (Or.inr h2)
    rw [show ((c :: q') ++ ['%']) = c :: (q' ++ ['%']) from rfl]
    rw [likeMatch.eq_def]
    dsimp only
    rw [if_neg hcp]
    cases t with
    | nil => simp
    | cons d ts =>
      dsimp only
      rw [if_neg hcu]
      simp only [Bool.and_eq_true, beq_iff_eq, List.map_cons, List.cons_prefix_cons]
      rw [likeMatch_plain q' (fun c2 h2 => hq c2 (by simp [h2])) ts]

theorem likeContains_iff (hay q : Str) (hq : ∀ c ∈ q, ¬(c = '%' ∨ c = '_')) :
    likeContains hay q = true ↔ (q.map Char.toLower) <:+: (hay.map Char.toLower) := by
  unfold likeContains
  rw [likeMatch_percent]
  constructor
  · rintro ⟨s, hs, hm⟩
    rw [likeMatch_plain q hq s] at hm
    exact List.infix_iff_prefix_suffix.mpr
      ⟨s.map Char.toLower, hm, List.IsSuffix.map Char.toLower hs⟩
  · intro hinf
    obtain ⟨t2, hpre, hsuf⟩ := List.infix_iff_prefix_suffix.mp hinf
    obtain ⟨pre, hsplit⟩ := hsuf
    refine ⟨hay.drop pre.length, List.drop_suffix _ _, ?_⟩
    rw [likeMatch_plain q hq]
    have hdrop : (hay.drop pre.length).map Char.toLower = t2 := by
      rw [List.map_drop, ← hsplit, List.drop_left]
    rw [hdrop]
    exact hpre

theorem mem_sortByCreatedDesc {p : PostRow} {l : List PostRow} :
    p ∈ sortByCreatedDesc l ↔ p ∈ l :=
  (List.perm_insertionSort createdDesc l).mem_iff

theorem sorted_sortByCreatedDesc (l : List PostRow) :
    List.Sorted createdDesc (sortByCreatedDesc l) :=
  List.sorted_insertionSort createdDesc l

/-- C4 (amended): for every query string free of the LIKE wildcard
characters percent and underscore, search returns exactly the published
posts whose title, content or excerpt contains the query as a
case-insensitive (ASCII-folded) substring, ordered by creation time
descending; an unpublished post containing the term is excluded, and no
ranking beyond the creation-time order is applied.  (A query containing
a wildcard character instead gets SQLite LIKE pattern semantics, the raw
query being interpolated into the pattern.) -/
theorem postSearch_spec (st : DB) (q : Str)
    (hq : ∀ c ∈ q, ¬(c = '%' ∨ c = '_')) :
    (∀ pr : PostWithRelations, pr ∈ postSearch st q ↔
      ∃ p ∈ st.posts, pr = attachRelations st p ∧ p.published = true ∧
        ((q.map Char.toLower) <:+: (p.title.map Char.toLower) ∨
         (q.map Char.toLower) <:+: (p.content.map Char.toLower) ∨
         (∃ e, p.excerpt = some e ∧ (q.map Char.toLower) <:+: (e.map Char.toLower)))) ∧
    List.Sorted createdDesc ((postSearch st q).map PostWithRelations.post) := by
  constructor
  · intro pr
    unfold postSearch
    rw [List.mem_map]
    constructor
    · rintro ⟨p, hp, rfl⟩
      rw [mem_sortByCreatedDesc] at hp
      obtain ⟨hpm, hpred⟩ := List.mem_filter.mp hp
      rw [Bool.and_eq_true] at hpred
      obtain ⟨hpub, hor⟩ := hpred
      refine ⟨p, hpm, rfl, hpub, ?_⟩
      rw [Bool.or_eq_true] at hor
      rcases hor with h12 | h3
      · rw [Bool.or_eq_true] at h12
        rcases h12 with h1 | h2
        · exact Or.inl ((likeContains_iff _ _ hq).mp h1)
        · exact Or.inr (Or.inl ((likeContains_iff _ _ hq).mp h2))
      · refine Or.inr (Or.inr ?_)
        cases hexc : p.excerpt with
        | none =>
          rw [hexc] at h3
          simp at h3
        | some e =>
          rw [hexc] at h3
          dsimp only at h3
          exact ⟨e, rfl, (likeContains_iff _ _ hq).mp h3⟩
    · rintro ⟨p, hpm, rfl, hpub, hmatch⟩
      refine ⟨p, ?_, rfl⟩
      rw [mem_sortByCreatedDesc, List.mem_filter]
      refine ⟨hpm, ?_⟩
      rw [Bool.and_eq_true]
      refine ⟨hpub, ?_⟩
      rw [Bool.or_eq_true]
      rcases hmatch with h1 | h2 | ⟨e, hexc, h3⟩
      · refine Or.inl ?_
        rw [Bool.or_eq_true]
        exact Or.inl ((likeContains_iff _ _ hq).mpr h1)
      · refine Or.inl ?_
        rw [Bool.or_eq_true]
        exact Or.inr ((likeContains_iff _ _ hq).mpr h2)
      · refine Or.inr ?_
        rw [hexc]
        dsimp only
        exact (likeContains_iff _ _ hq).mpr h3
  · unfold postSearch
    rw [List.map_map]
    have hcomp : (PostWithRelations.post ∘ attachRelations st) = id := by
      funext p
      rfl
    rw [hcomp, List.map_id]
    exact sorted_sortByCreatedDesc _

/-- C4 counterexample: the program interpolates the raw query into the
LIKE pattern, so searching for "a_c" — not a substring of any field of
the stored published post titled "abc" — still returns that post, the
underscore acting as a single-character wildcard; pure substring
presence is false of the code for wildcard-bearing queries. -/
theorem postSearch_wildcard_counterexample :
    attachRelations sampleDB3 wildcardPost ∈ postSearch sampleDB3 ['a', '_', 'c'] ∧
    ¬ (['a', '_', 'c'].map Char.toLower) <:+: (wildcardPost.title.map Char.toLower) ∧
    ¬ (['a', '_', 'c'].map Char.toLower) <:+: (wildcardPost.content.map Char.toLower) ∧
    wildcardPost.excerpt = none := by
  refine ⟨?_, by decide, by decide, rfl⟩
  decide

/-- C4 witness: on the wildcard-free query "ab" the published post
titled "abc" is returned and the result is sorted. -/
theorem postSearch_spec_witness :
    (attachRelations sampleDB3 wildcardPost ∈ postSearch sampleDB3 ['a', 'b'] ↔
      ∃ p ∈ sampleDB3.posts, attachRelations sampleDB3 wildcardPost
          = attachRelations sampleDB3 p ∧ p.published = true ∧
        ((['a', 'b'].map Char.toLower) <:+: (p.title.map Char.toLower) ∨
         (['a', 'b'].map Char.toLower) <:+: (p.content.map Char.toLower) ∨
         (∃ e, p.excerpt = some e ∧
           (['a', 'b'].map Char.toLower) <:+: (e.map Char.toLower)))) ∧
    List.Sorted createdDesc
      ((postSearch sampleDB3 ['a', 'b']).map PostWithRelations.post) :=
  ⟨(postSearch_spec sampleDB3 ['a', 'b'] (by decide)).1
      (attachRelations sampleDB3 wildcardPost),
    (postSearch_spec sampleDB3 ['a', 'b'] (by decide)).2⟩

/-- C5 counterexample: findAll with offset 1 supplied and no limit does
not yield the paginated list — the assembled query has an OFFSET clause
without a LIMIT clause, which SQLite rejects at prepare time, so the
call fails. -/
theorem postFindAll_offsetOnly_counterexample :
    postFindAll sampleDB none none none (some 1) = Except.error SqlErr.syntaxError := by
  rfl

/-- C5 (amended): findAll returns the posts satisfying the logical AND of
the supplied published/featured filters, ordered by creation time
descending, and a truthy limit paginates via take after dropping a
supplied offset — but a truthy offset supplied without a truthy limit
fails with a storage error (OFFSET without LIMIT is invalid SQLite), and
a supplied zero limit or zero offset counts as absent under the
truthiness checks: offset 0 returns the full list, limit 0 behaves like
no limit and still fails when combined with a nonzero offset. -/
theorem postFindAll_spec (st : DB) (pub feat : Option Bool) (l o : Nat)
    (full : List PostWithRelations)
    (hfull : postFindAll st pub feat none none = Except.ok full) :
    (∀ pr, pr ∈ full ↔ ∃ p ∈ st.posts, pr = attachRelations st p ∧
        (∀ b, pub = some b → p.published = b) ∧
        (∀ b, feat = some b → p.featured = b)) ∧
    List.Sorted createdDesc (full.map PostWithRelations.post) ∧
    (l ≠ 0 → postFindAll st pub feat (some l) (some o)
        = Except.ok ((full.drop o).take l)) ∧
    (l ≠ 0 → postFindAll st pub feat (some l) none = Except.ok (full.take l)) ∧
    postFindAll st pub feat none (some 0) = Except.ok full ∧
    (o ≠ 0 → postFindAll st pub feat none (some o)
        = Except.error SqlErr.syntaxError) ∧
    postFindAll st pub feat (some 0) none = Except.ok full ∧
    (o ≠ 0 → postFindAll st pub feat (some 0) (some o)
        = Except.error SqlErr.syntaxError) := by
  have hfull2 : full
      = (sortByCreatedDesc (st.posts.filter (findAllPred pub feat))).map
          (attachRelations st) := by
    unfold postFindAll at hfull
    rw [if_neg (by simp)] at hfull
    injection hfull with h2
    exact h2.symm
  refine ⟨?_, ?_, ?_, ?_, ?_, ?_, ?_, ?_⟩
  · intro pr
    rw [hfull2, List.mem_map]
    constructor
    · rintro ⟨p, hp, rfl⟩
      rw [mem_sortByCreatedDesc] at hp
      obtain ⟨hpm, hpred⟩ := List.mem_filter.mp hp
      unfold findAllPred at hpred
      rw [Bool.and_eq_true] at hpred
      refine ⟨p, hpm, rfl, ?_, ?_⟩
      · intro b hb
        have := hpred.1
        rw [hb] at this
        exact eq_of_beq this
      · intro b hb
        have := hpred.2
        rw [hb] at this
        exact eq_of_beq this
    · rintro ⟨p, hpm, rfl, hpub, hfeat⟩
      refine ⟨p, ?_, rfl⟩
      rw [mem_sortByCreatedDesc, List.mem_filter]
      refine ⟨hpm, ?_⟩
      unfold findAllPred
      rw [Bool.and_eq_true]
      constructor
      · cases hb : pub with
        | none => rfl
        | some b =>
          rw [hpub b hb]
          exact beq_self_eq_true b
      · cases hb : feat with
        | none => rfl
        | some b =>
          rw [hfeat b hb]
          exact beq_self_eq_true b
  · rw [hfull2, List.map_map]
    have hcomp : (PostWithRelations.post ∘ attachRelations st) = id := by
      funext p
      rfl
    rw [hcomp, List.map_id]
    exact sorted_sortByCreatedDesc _
  · intro hl
    unfold postFindAll
    rw [if_neg (by simp [hl])]
    simp only [Option.getD_some, Option.getD_none]
    rw [hfull2]
    rw [if_pos hl]
    rw [List.map_take, List.map_drop]
  · intro hl
    unfold postFindAll
    rw [if_neg (by simp)]
    simp only [Option.getD_some, Option.getD_none]
    rw [hfull2]
    rw [if_pos hl]
    rw [List.map_take]
    rfl
  · exact hfull
  · intro ho
    unfold postFindAll
    rw [if_pos ⟨ho, rfl⟩]
  · exact hfull
  · intro ho
    unfold postFindAll
    rw [if_pos ⟨ho, rfl⟩]

/-- C5 witness: on the sample database the unpaginated call succeeds, and
limit 1 with offset 0 returns the first page. -/
theorem postFindAll_spec_witness :
    postFindAll sampleDB none none (some 1) (some 0)
      = Except.ok (((attachRelations sampleDB samplePost :: []).drop 0).take 1) :=
  (postFindAll_spec sampleDB none none 1 0 (attachRelations sampleDB samplePost :: [])
    (by rfl)).2.2.1 (by decide)

/-- C7: at the failing input — creating a category whose name "tech"
already exists — the service raises a unique-constraint violation, but
the route's blanket handler returns the same generic 500 response it
returns for any storage fault, so the conflict is not surfaced as a
distinguishable error. -/
theorem categoriesPOST_conflictNotDistinguished :
    (categoryCreate sampleDB ['c', '9'] ['t', 'e', 'c', 'h'] none none).2
        = Except.error SqlErr.uniqueViolation ∧
    (categoriesPOST sampleDB (some ['t', 'e', 'c', 'h']) none none ['c', '9']).2
        = (500, ApiBody.errorJson "Failed to create category".toList) := by
  constructor
  · rfl
  · rfl

theorem find?_append_self (posts : List PostRow) (row : PostRow) (pid : Str)
    (hnone : ∀ q ∈ posts, (q.id == pid) = false) (hrow : row.id = pid) :
    (posts ++ [row]).find? (fun p => p.id == pid) = some row := by
  rw [List.find?_append]
  have h1 : posts.find? (fun p => p.id == pid) = none :=
    List.find?_eq_none.mpr (fun q hq => by simp [hnone q hq])
  rw [h1]
  simp [List.find?_cons, hrow]

theorem postCreate_readingTime (st : DB) (input : CreatePostInput) (newId : Str) (now : Nat)
    (hfresh : st.posts.any (fun q => q.id == newId || q.slug == input.slug) = false)
    (hauthor : st.users.any (fun u => u.id == input.author_id) = true) :
    (rowOf (postCreate st input newId now).1 newId).map PostRow.reading_time
      = some (effectiveReadingTime input.reading_time input.content) := by
  have hnone : ∀ q ∈ st.posts, (q.id == newId) = false := by
    intro q hq
    have h2 := List.any_eq_false.mp hfresh q hq
    rw [Bool.or_eq_true] at h2
    by_cases hb : (q.id == newId) = true
    · exact absurd (Or.inl hb) h2
    · exact Bool.eq_false_iff.mpr hb
  unfold postCreate
  dsimp only
  unfold insertPostRow
  rw [if_neg (by simp [hfresh])]
  rw [if_neg (fun hn => hn hauthor)]
  dsimp only
  rcases h2 : insertPostCategories
    { st with
        posts := st.posts ++
          [{ id := newId, title := input.title, slug := input.slug,
              content := input.content, excerpt := input.excerpt,
              cover_image := input.cover_image, published := input.published,
              featured := input.featured,
              reading_time := effectiveReadingTime input.reading_time input.content,
              views := 0, created_at := now, updated_at := now,
              published_at := if input.published then some now else none,
              author_id := input.author_id }] }
    newId (input.categories.getD []) with ⟨st2, oe2⟩
  have hf2 := insertPostCategories_frame newId (input.categories.getD [])
    { st with
        posts := st.posts ++
          [{ id := newId, title := input.title, slug := input.slug,
              content := input.content, excerpt := input.excerpt,
              cover_image := input.cover_image, published := input.published,
              featured := input.featured,
              reading_time := effectiveReadingTime input.reading_time input.content,
              views := 0, created_at := now, updated_at := now,
              published_at := if input.published then some now else none,
              author_id := input.author_id }] }
  rw [h2] at hf2
  dsimp only at hf2
  have hrow2 : ∀ stX : DB, stX.posts = st.posts ++
      [{ id := newId, title := input.title, slug := input.slug,
          content := input.content, excerpt := input.excerpt,
          cover_image := input.cover_image, published := input.published,
          featured := input.featured,
          reading_time := effectiveReadingTime input.reading_time input.content,
          views := 0, created_at := now, updated_at := now,
          published_at := if input.published then some now else none,
          author_id := input.author_id }] →
      (rowOf stX newId).map PostRow.reading_time
        = some (effectiveReadingTime input.reading_time input.content) := by
    intro stX hX
    unfold rowOf
    rw [hX]
    rw [find?_append_self st.posts _ newId hnone rfl]
    rfl
  cases oe2 with
  | some e =>
    dsimp only
    exact hrow2 st2 hf2.1
  | none =>
    dsimp only
    rcases h3 : insertPostTags st2 newId (input.tags.getD []) with ⟨st3, oe3⟩
    have hf3 := insertPostTags_frame newId (input.tags.getD []) st2
    rw [h3] at hf3
    dsimp only at hf3
    cases oe3 with
    | some e =>
      dsimp only
      exact hrow2 st3 (hf3.1.trans hf2.1)
    | none =>
      dsimp only
      exact hrow2 st3 (hf3.1.trans hf2.1)

/-- C8: the reading-time estimate is a positive integer (word count over
an assumed speed with a floor of one minute, spec-modelled); create
stores the supplied truthy reading time and otherwise — the field absent
or zero, hence falsy — the estimate computed from the content; an update
whose UPDATE statement succeeds (any supplied slug does not collide with
another post's) recomputes the stored reading time exactly when the
content field is present in the partial input and leaves it unchanged
otherwise. -/
theorem readingTime_spec :
    (∀ content : Str, 1 ≤ calculateReadingTime content) ∧
    (∀ (st : DB) (input : CreatePostInput) (newId : Str) (now : Nat),
      st.posts.any (fun q => q.id == newId || q.slug == input.slug) = false →
      st.users.any (fun u => u.id == input.author_id) = true →
      (rowOf (postCreate st input newId now).1 newId).map PostRow.reading_time
        = some (effectiveReadingTime input.reading_time input.content)) ∧
    (∀ content : Str, effectiveReadingTime none content = calculateReadingTime content ∧
      effectiveReadingTime (some 0) content = calculateReadingTime content ∧
      (∀ rt : Nat, rt ≠ 0 → effectiveReadingTime (some rt) content = rt)) ∧
    (∀ (st : DB) (input : UpdatePostInput) (now : Nat) (r : PostRow),
      rowOf st input.id = some r →
      slugCollision st input = false →
      (∀ c, input.content = some c →
        (rowOf (postUpdate st input now).1 input.id).map PostRow.reading_time
          = some (calculateReadingTime c)) ∧
      (input.content = none →
        (rowOf (postUpdate st input now).1 input.id).map PostRow.reading_time
          = some r.reading_time)) := by
  refine ⟨fun content => le_max_left 1 _, postCreate_readingTime, ?_, ?_⟩
  · intro content
    refine ⟨rfl, rfl, fun rt hrt => ?_⟩
    unfold effectiveReadingTime
    dsimp only
    rw [if_pos hrt]
  · intro st input now r h hcol
    have h2 := rowOf_postUpdate st input now hcol
    rw [h] at h2
    constructor
    · intro c hc
      rw [h2]
      show some (applyUpdate input now r).reading_time = _
      rw [applyUpdate_eq]
      dsimp only
      rw [hc]
    · intro hc
      rw [h2]
      show some (applyUpdate input now r).reading_time = _
      rw [applyUpdate_eq]
      dsimp only
      rw [hc]

/-- C8 witness: creating a post with no supplied reading time stores the
computed estimate, and updating the sample post without content leaves
its stored reading time 1. -/
theorem readingTime_spec_witness :
    (rowOf (postCreate sampleDB
        { title := ['N'], slug := ['n'], content := ['w'],
          author_id := ['u', '1'] } ['p', '3'] 6).1 ['p', '3']).map PostRow.reading_time
      = some (effectiveReadingTime none ['w']) ∧
    (rowOf (postUpdate sampleDB { id := ['p', '1'], featured := some true } 8).1
        ['p', '1']).map PostRow.reading_time = some samplePost.reading_time := by
  constructor
  · exact readingTime_spec.2.1 sampleDB
      { title := ['N'], slug := ['n'], content := ['w'], author_id := ['u', '1'] }
      ['p', '3'] 6 (by decide) (by decide)
  · exact (readingTime_spec.2.2.2 sampleDB { id := ['p', '1'], featured := some true } 8
      samplePost (by rfl) (by rfl)).2 (by rfl)
